import Mathlib

/-!
Shallow embedding of two utility modules of the repository:

* `orttraining/orttraining/python/training/onnxblock/_graph_utils.py` —
  graph-rewriting helpers that move initializers to graph inputs, call an
  external gradient-graph builder, and add gradient-accumulation nodes.
* `onnxruntime/python/tools/transformers/benchmark_autosuggest_LM/model/model_runner.py` —
  post-processing of beam-search outputs into autocomplete suggestions.

ONNX protobuf objects are embedded as plain records holding exactly the fields
the code reads or writes.  The external `GradientGraphBuilder` (from
`onnxruntime.capi._pybind_state`) is kept abstract as a function parameter:
the modules under verification never inspect its output, they only splice it
into the model.  Python's in-place list mutation (`append`, `del l[:]`,
`extend`) is rendered as functional list construction with the same net
effect, loop by loop.
-/

/-- Embedding of an ONNX `ValueInfoProto` restricted to the fields this code
touches: the name, the tensor element type (the numeric `TensorProto.DataType`
code) and the shape dims.  `onnx.helper.make_tensor_value_info` produces
exactly such a record. -/
structure ValueInfo where
  name : String
  elem_type : Nat
  dims : List Int
deriving DecidableEq, Repr

/-- Embedding of an ONNX `NodeProto` restricted to the fields
`onnx.helper.make_node` sets here. -/
structure NodeProto where
  op_type : String
  input : List String
  output : List String
  name : String
  domain : String
deriving DecidableEq, Repr

/-- Embedding of an ONNX `TensorProto` initializer: name, numeric data type
code, and dims. -/
structure TensorProto where
  name : String
  data_type : Nat
  dims : List Int
deriving DecidableEq, Repr

/-- Embedding of an ONNX `GraphProto` restricted to the four repeated fields
the code uses. -/
structure GraphProto where
  input : List ValueInfo
  output : List ValueInfo
  node : List NodeProto
  initializer : List TensorProto
deriving DecidableEq, Repr

/-- Embedding of an ONNX `ModelProto`: its graph and its opset imports (an
opset import is a (domain, version) pair). -/
structure ModelProto where
  graph : GraphProto
  opset_import : List (String × Nat)
deriving DecidableEq, Repr

/-- The `accessor` object handed to `build_gradient_graph`: it carries the
model and receives the `eval_model` attribute (absent before the call, hence
an `Option`). -/
structure Accessor where
  model : ModelProto
  eval_model : Option ModelProto
deriving DecidableEq, Repr

/-- `onnx.helper.make_tensor_value_info(name, elem_type, dims)`. -/
def make_tensor_value_info (name : String) (elem_type : Nat) (dims : List Int) :
    ValueInfo :=
  { name := name, elem_type := elem_type, dims := dims }

/-- The numeric code of `onnx.TensorProto.BOOL`. -/
def TensorProto_BOOL : Nat := 9

/-- Python `name[0].isdigit()`.  On the empty string Python raises
`IndexError`; the embedding returns `false` there and the theorems restrict to
nonempty names where the two agree. -/
def starts_with_digit (s : String) : Bool :=
  match s.data with
  | [] => false
  | c :: _ => c.isDigit

/-- The loop of `get_output_from_output_name`: first graph output whose name
matches, `none` embeds the `raise LookupError` path. -/
def find_output (output_name : String) : List ValueInfo → Option ValueInfo
  | [] => none
  | output :: rest =>
    if output.name = output_name then some output
    else find_output output_name rest

/-- `get_output_from_output_name(onnx_model, output_name)`: returns the graph
output with the given name, `none` when the function raises `LookupError`. -/
def get_output_from_output_name (onnx_model : ModelProto) (output_name : String) :
    Option ValueInfo :=
  find_output output_name onnx_model.graph.output

/-- `generate_random_graph_name(token)` builds `f"{get_random_number()}.{token}"`;
the draw of `random.randint(0, 1000)` is made explicit as the argument `n`,
which the theorems constrain to `n ≤ 1000`. -/
def generate_random_graph_name (n : Nat) (token : String) : String :=
  Nat.repr n ++ "." ++ token

/-- The initializer loop of `build_gradient_graph` (lines 49-64): walking
`model.graph.initializer`, it returns, in order,
(1) the tensor value infos appended to `graph_inputs`,
(2) the initializers kept (digit-prefixed names), and
(3) the names added to `all_args_requiring_gradient`. -/
def initializer_split (user_args_not_requiring_grad : List String) :
    List TensorProto → List ValueInfo × List TensorProto × List String
  | [] => ([], [], [])
  | initializer :: rest =>
    let r := initializer_split user_args_not_requiring_grad rest
    if starts_with_digit initializer.name then
      (r.1, initializer :: r.2.1, r.2.2)
    else
      (make_tensor_value_info initializer.name initializer.data_type
          initializer.dims :: r.1,
       r.2.1,
       if initializer.name ∈ user_args_not_requiring_grad then r.2.2
       else initializer.name :: r.2.2)

/-- `build_gradient_graph(accessor, user_args_requiring_grad,
user_args_not_requiring_grad, output_names)`.  The external
`GradientGraphBuilder` pipeline (construct from the serialized model, the
output-name set, the argument set and the loss name; `build()`;
`get_model()`) is the abstract parameter `gradient_graph_builder`.
`output_names` is taken already in list form (the `isinstance(output_names,
str)` branch wraps a string into a singleton list).  Returns the updated
accessor (its graph replaced by the builder's graph, its opsets replaced by
the builder's, and `eval_model` set to the deepcopy taken before building)
together with `all_args_requiring_gradient`. -/
def build_gradient_graph
    (gradient_graph_builder :
      ModelProto → List String → List String → String → ModelProto)
    (accessor : Accessor)
    (user_args_requiring_grad user_args_not_requiring_grad : List String)
    (output_names : List String) : Accessor × List String :=
  let model := accessor.model
  let s := initializer_split user_args_not_requiring_grad
    model.graph.initializer
  let moved_model : ModelProto :=
    { model with graph :=
      { model.graph with
        input := model.graph.input ++ s.1,
        initializer := s.2.1 } }
  let all_args_requiring_gradient := s.2.2 ++ user_args_requiring_grad
  let gradient_model := gradient_graph_builder moved_model output_names
    all_args_requiring_gradient (output_names.headD "")
  let final_model : ModelProto :=
    { moved_model with
      graph := gradient_model.graph,
      opset_import := gradient_model.opset_import }
  ({ model := final_model, eval_model := some moved_model },
   all_args_requiring_gradient)

/-- The `InPlaceAccumulator` node `build_gradient_accumulation_graph` appends
for the gradient output named `grad_name` at output index `idx`. -/
def acc_node (idx : Nat) (grad_name : String) : NodeProto :=
  { op_type := "InPlaceAccumulator",
    input := [grad_name ++ ".accumulation.buffer", grad_name,
              "lazy_reset_grad"],
    output := [grad_name ++ ".accumulation.out"],
    name := "GradientAccumulator" ++ Nat.repr idx,
    domain := "com.microsoft" }

/-- The enumerate loop of `build_gradient_accumulation_graph` over
`grad_model.graph.output`, starting at output index `idx`.  Returns, in
order, the nodes appended to `graph_nodes`, the buffer inputs appended to
`graph_inputs`, and the `graph_outputs` list it builds. -/
def accumulation_loop (gradient_output_names : List String) (idx : Nat) :
    List ValueInfo → List NodeProto × List ValueInfo × List ValueInfo
  | [] => ([], [], [])
  | graph_output :: rest =>
    let r := accumulation_loop gradient_output_names (idx + 1) rest
    if graph_output.name ∈ gradient_output_names then
      (acc_node idx graph_output.name :: r.1,
       { graph_output with
          name := graph_output.name ++ ".accumulation.buffer" } :: r.2.1,
       { graph_output with
          name := graph_output.name ++ ".accumulation.out" } :: r.2.2)
    else
      (r.1, r.2.1, graph_output :: r.2.2)

/-- `build_gradient_accumulation_graph(grad_model,
all_args_requiring_gradient_names)`: appends an `InPlaceAccumulator` node and
a buffer input per gradient output, appends the `lazy_reset_grad` input after
the loop, and replaces the graph outputs with the rebuilt list. -/
def build_gradient_accumulation_graph (grad_model : ModelProto)
    (all_args_requiring_gradient_names : List String) : ModelProto :=
  let gradient_output_names :=
    all_args_requiring_gradient_names.map (fun arg_name => arg_name ++ "_grad")
  let r := accumulation_loop gradient_output_names 0 grad_model.graph.output
  let lazy_reset_grad_input :=
    make_tensor_value_info "lazy_reset_grad" TensorProto_BOOL [1]
  { grad_model with graph :=
    { grad_model.graph with
      node := grad_model.graph.node ++ r.1,
      input := grad_model.graph.input ++ r.2.1 ++ [lazy_reset_grad_input],
      output := r.2.2 } }

/-- `get_model_parameters(model, args_not_requiring_gradient)`: the pair
(trainable, non-trainable) of initializers whose names do not begin with a
digit, split on membership in `args_not_requiring_gradient`. -/
def get_model_parameters_loop (args_not_requiring_gradient : List String) :
    List TensorProto → List TensorProto × List TensorProto
  | [] => ([], [])
  | initializer :: rest =>
    let r := get_model_parameters_loop args_not_requiring_gradient rest
    if starts_with_digit initializer.name then r
    else if initializer.name ∈ args_not_requiring_gradient then
      (r.1, initializer :: r.2)
    else
      (initializer :: r.1, r.2)

/-- `get_model_parameters(model, args_not_requiring_gradient)`. -/
def get_model_parameters (model : ModelProto)
    (args_not_requiring_gradient : List String) :
    List TensorProto × List TensorProto :=
  get_model_parameters_loop args_not_requiring_gradient
    model.graph.initializer

/-- The tokenizer object `ModelRunner.process_results` receives: its
end-of-sequence token id and its `decode` method, kept abstract. -/
structure Tokenizer where
  eos_token_id : Int
  decode : List Int → String

/-- Python `str.rstrip()`: drop trailing whitespace characters. -/
def py_rstrip (s : String) : String :=
  String.mk ((s.data.reverse.dropWhile Char.isWhitespace).reverse)

/-- The `for k in range(len(output_ij))` loop of `process_results`: truncate
the token list at the first occurrence of `tokenizer.eos_token_id`, keeping
only the tokens before it. -/
def truncate_at_eos (eos_token_id : Int) (output_ij : List Int) : List Int :=
  output_ij.takeWhile (fun t => t != eos_token_id)

/-- The per-candidate text of `process_results`: truncate at eos, drop the
first `last_complete_word_position` tokens, decode, strip trailing
whitespace. -/
def suggestion_text (tokenizer : Tokenizer)
    (last_complete_word_position : Nat) (output_ij : List Int) : String :=
  py_rstrip (tokenizer.decode
    ((truncate_at_eos tokenizer.eos_token_id output_ij).drop
      last_complete_word_position))

/-- The inner `for j, output_ij in enumerate(output_i)` loop of
`process_results` over one batch row, with the candidate token lists already
paired with their probabilities `output_probs[i, j]`.  `acc` carries the
`(returns_i, probs_i)` lists built so far; the `break` on a negative
probability once `returns_i` is nonempty returns `acc` unchanged, discarding
the rest of the row. -/
def process_row (tokenizer : Tokenizer) (last_complete_word_position : Nat)
    (acc : List String × List Rat) :
    List (List Int × Rat) → List String × List Rat
  | [] => acc
  | (output_ij, prob) :: rest =>
    if acc.1 ≠ [] ∧ prob < 0 then acc
    else
      let output_text := suggestion_text tokenizer
        last_complete_word_position output_ij
      if output_text ∈ acc.1 then
        process_row tokenizer last_complete_word_position acc rest
      else
        process_row tokenizer last_complete_word_position
          (acc.1 ++ [output_text], acc.2 ++ [prob]) rest

/-- `ModelRunner.process_results(output_ids, output_probs, tokenizer,
last_complete_word_position)` on the 3-dimensional form of `output_ids` (the
`dim() == 2` branch only reshapes a 2-dimensional tensor into one candidate
per row).  Probabilities carry no arithmetic here — only the comparison with
0 and a copy into the result — so they are embedded as rationals.  Rows of
`output_ids` are paired positionwise with rows of `output_probs`, and
candidates with their probabilities, mirroring the `output_probs[i, j]`
indexing on conforming shapes. -/
def process_results (tokenizer : Tokenizer)
    (last_complete_word_position : Nat)
    (output_ids : List (List (List Int))) (output_probs : List (List Rat)) :
    List (List String) × List (List Rat) :=
  let rows := (output_ids.zip output_probs).map (fun row =>
    process_row tokenizer last_complete_word_position ([], [])
      (row.1.zip row.2))
  (rows.map (fun r => r.1), rows.map (fun r => r.2))

/-! ## Lemmas about the gradient-accumulation loop -/

theorem accumulation_loop_nodes (gn : List String) (idx : Nat)
    (outs : List ValueInfo) :
    (accumulation_loop gn idx outs).1 =
      ((outs.enumFrom idx).filter (fun p => p.2.name ∈ gn)).map
        (fun p => acc_node p.1 p.2.name) := by
  induction outs generalizing idx with
  | nil => simp [accumulation_loop]
  | cons o rest ih =>
    by_cases h : o.name ∈ gn
    · simp [accumulation_loop, List.enumFrom, h, ih]
    · simp [accumulation_loop, List.enumFrom, h, ih]

theorem accumulation_loop_buffers (gn : List String) (idx : Nat)
    (outs : List ValueInfo) :
    (accumulation_loop gn idx outs).2.1 =
      (outs.filter (fun o => o.name ∈ gn)).map
        (fun o => { o with name := o.name ++ ".accumulation.buffer" }) := by
  induction outs generalizing idx with
  | nil => simp [accumulation_loop]
  | cons o rest ih =>
    by_cases h : o.name ∈ gn
    · simp [accumulation_loop, h, ih]
    · simp [accumulation_loop, h, ih]

theorem accumulation_loop_outputs (gn : List String) (idx : Nat)
    (outs : List ValueInfo) :
    (accumulation_loop gn idx outs).2.2 =
      outs.map (fun o =>
        if o.name ∈ gn then { o with name := o.name ++ ".accumulation.out" }
        else o) := by
  induction outs generalizing idx with
  | nil => simp [accumulation_loop]
  | cons o rest ih =>
    by_cases h : o.name ∈ gn
    · simp [accumulation_loop, h, ih]
    · simp [accumulation_loop, h, ih]

/-! ## Claim theorems for build_gradient_accumulation_graph -/

/-- C1: for each graph output whose name equals `<arg>_grad` for some `arg`
in `all_args_requiring_gradient_names`, `build_gradient_accumulation_graph`
appends exactly one node with op_type `InPlaceAccumulator` and domain
`com.microsoft`, inputs `[<g>.accumulation.buffer, <g>, lazy_reset_grad]` in
that order and sole output `<g>.accumulation.out`; no accumulator node is
added for any other graph output. -/
theorem build_gradient_accumulation_graph_nodes (grad_model : ModelProto)
    (all_args_requiring_gradient_names : List String) :
    (build_gradient_accumulation_graph grad_model
        all_args_requiring_gradient_names).graph.node =
      grad_model.graph.node ++
        ((grad_model.graph.output.enum.filter (fun p =>
            p.2.name ∈ all_args_requiring_gradient_names.map
              (fun arg => arg ++ "_grad"))).map (fun p =>
          { op_type := "InPlaceAccumulator",
            input := [p.2.name ++ ".accumulation.buffer", p.2.name,
                      "lazy_reset_grad"],
            output := [p.2.name ++ ".accumulation.out"],
            name := "GradientAccumulator" ++ Nat.repr p.1,
            domain := "com.microsoft" })) ∧
    ∀ s : String,
      (s ∈ all_args_requiring_gradient_names.map (fun arg => arg ++ "_grad"))
        ↔ ∃ arg ∈ all_args_requiring_gradient_names, s = arg ++ "_grad" := by
  constructor
  · simp only [build_gradient_accumulation_graph, accumulation_loop_nodes,
      List.enum, acc_node]
  · intro s
    simp only [List.mem_map]
    constructor
    · rintro ⟨a, ha, rfl⟩; exact ⟨a, ha, rfl⟩
    · rintro ⟨a, ha, rfl⟩; exact ⟨a, ha, rfl⟩

/-- C4: for each gradient graph output `<g>`, a graph input
`<g>.accumulation.buffer` with the same element type and dims is appended to
the graph inputs, and after all buffer inputs exactly one further input
`lazy_reset_grad` of type BOOL with shape [1] is appended. -/
theorem build_gradient_accumulation_graph_inputs (grad_model : ModelProto)
    (all_args_requiring_gradient_names : List String) :
    (build_gradient_accumulation_graph grad_model
        all_args_requiring_gradient_names).graph.input =
      grad_model.graph.input ++
        (grad_model.graph.output.filter (fun o =>
            o.name ∈ all_args_requiring_gradient_names.map
              (fun arg => arg ++ "_grad"))).map (fun o =>
          { o with name := o.name ++ ".accumulation.buffer" }) ++
        [make_tensor_value_info "lazy_reset_grad" TensorProto_BOOL [1]] := by
  simp [build_gradient_accumulation_graph, accumulation_loop_buffers]

/-- C5: after `build_gradient_accumulation_graph`, the graph outputs are the
original outputs in order, each non-gradient output unchanged and each
gradient output `<g>` replaced by a same-typed output named
`<g>.accumulation.out`; the pre-existing nodes and the pre-existing inputs
are unchanged (they stay as the leading segment of the new lists). -/
theorem build_gradient_accumulation_graph_frame (grad_model : ModelProto)
    (all_args_requiring_gradient_names : List String) :
    (build_gradient_accumulation_graph grad_model
        all_args_requiring_gradient_names).graph.output =
      grad_model.graph.output.map (fun o =>
        if o.name ∈ all_args_requiring_gradient_names.map
            (fun arg => arg ++ "_grad") then
          { o with name := o.name ++ ".accumulation.out" }
        else o) ∧
    (build_gradient_accumulation_graph grad_model
        all_args_requiring_gradient_names).graph.node.take
      grad_model.graph.node.length = grad_model.graph.node ∧
    (build_gradient_accumulation_graph grad_model
        all_args_requiring_gradient_names).graph.input.take
      grad_model.graph.input.length = grad_model.graph.input := by
  refine ⟨?_, ?_, ?_⟩
  · simp [build_gradient_accumulation_graph, accumulation_loop_outputs]
  · simp [build_gradient_accumulation_graph, List.take_left]
  · simp [build_gradient_accumulation_graph, List.append_assoc,
      List.take_left]

/-! ## Lemmas about the initializer-moving loop of build_gradient_graph -/

theorem initializer_split_inputs (unot : List String)
    (inits : List TensorProto) :
    (initializer_split unot inits).1 =
      (inits.filter (fun i => ! starts_with_digit i.name)).map
        (fun i => make_tensor_value_info i.name i.data_type i.dims) := by
  induction inits with
  | nil => simp [initializer_split]
  | cons i rest ih =>
    by_cases hd : starts_with_digit i.name
    · simp [initializer_split, hd, ih]
    · simp [initializer_split, hd, ih]

theorem initializer_split_kept (unot : List String)
    (inits : List TensorProto) :
    (initializer_split unot inits).2.1 =
      inits.filter (fun i => starts_with_digit i.name) := by
  induction inits with
  | nil => simp [initializer_split]
  | cons i rest ih =>
    by_cases hd : starts_with_digit i.name
    · simp [initializer_split, hd, ih]
    · simp [initializer_split, hd, ih]

theorem initializer_split_names (unot : List String)
    (inits : List TensorProto) (name : String) :
    name ∈ (initializer_split unot inits).2.2 ↔
      ∃ init ∈ inits, init.name = name ∧
        starts_with_digit init.name = false ∧ name ∉ unot := by
  induction inits with
  | nil => simp [initializer_split]
  | cons i rest ih =>
    by_cases hd : starts_with_digit i.name
    · simp only [initializer_split, hd, if_true, ih, List.mem_cons]
      constructor
      · rintro ⟨init, hmem, hprop⟩; exact ⟨init, Or.inr hmem, hprop⟩
      · rintro ⟨init, rfl | hmem, hprop⟩
        · simp [hd] at hprop
        · exact ⟨init, hmem, hprop⟩
    · by_cases hu : i.name ∈ unot
      · simp only [initializer_split, hd, if_false, hu, if_true,
          Bool.false_eq_true, ih, List.mem_cons]
        constructor
        · rintro ⟨init, hmem, hprop⟩; exact ⟨init, Or.inr hmem, hprop⟩
        · rintro ⟨init, rfl | hmem, hprop⟩
          · exact absurd (hprop.1 ▸ hu) hprop.2.2
          · exact ⟨init, hmem, hprop⟩
      · simp only [initializer_split, hd, if_false, hu, Bool.false_eq_true,
          List.mem_cons, ih]
        constructor
        · rintro (rfl | ⟨init, hmem, hprop⟩)
          · exact ⟨i, Or.inl rfl, rfl, by simp [hd], hu⟩
          · exact ⟨init, Or.inr hmem, hprop⟩
        · rintro ⟨init, rfl | hmem, hprop⟩
          · exact Or.inl hprop.1.symm
          · exact Or.inr ⟨init, hmem, hprop⟩

/-! ## Claim theorems for build_gradient_graph -/

/-- C2: `build_gradient_graph` removes from `model.graph.initializer` every
initializer whose name does not begin with a digit and appends, for each
such initializer, a graph input with the same name, data type and dims,
while the digit-named initializers remain.  The state of the model after
this move is the model handed to the external `GradientGraphBuilder` and is
captured unchanged as `accessor.eval_model` (the subsequent graph contents
come from the external builder).  The hypothesis excludes empty initializer
names, on which `name[0]` would raise in Python. -/
theorem build_gradient_graph_moves_initializers
    (gradient_graph_builder :
      ModelProto → List String → List String → String → ModelProto)
    (accessor : Accessor)
    (user_args_requiring_grad user_args_not_requiring_grad : List String)
    (output_names : List String)
    (hne : ∀ init ∈ accessor.model.graph.initializer, init.name ≠ "") :
    (build_gradient_graph gradient_graph_builder accessor
        user_args_requiring_grad user_args_not_requiring_grad
        output_names).1.eval_model =
      some { accessor.model with graph :=
        { accessor.model.graph with
          input := accessor.model.graph.input ++
            (accessor.model.graph.initializer.filter (fun i =>
                ! starts_with_digit i.name)).map (fun i =>
              make_tensor_value_info i.name i.data_type i.dims),
          initializer := accessor.model.graph.initializer.filter (fun i =>
            starts_with_digit i.name) } } := by
  simp [build_gradient_graph, initializer_split_inputs,
    initializer_split_kept]

/-- C3: `build_gradient_graph` returns exactly the set of (i) names of
initializers of the input model whose name does not begin with a digit and
that are not in `user_args_not_requiring_grad`, together with (ii) every
name in `user_args_requiring_grad`.  The hypotheses keep to the domain
where the Python function returns: nonempty initializer names (else
`name[0]` raises) and a nonempty `output_names` (else `output_names[0]`
raises). -/
theorem build_gradient_graph_returns
    (gradient_graph_builder :
      ModelProto → List String → List String → String → ModelProto)
    (accessor : Accessor)
    (user_args_requiring_grad user_args_not_requiring_grad : List String)
    (output_names : List String)
    (hne : ∀ init ∈ accessor.model.graph.initializer, init.name ≠ "")
    (houts : output_names ≠ []) :
    ∀ name : String,
      name ∈ (build_gradient_graph gradient_graph_builder accessor
          user_args_requiring_grad user_args_not_requiring_grad
          output_names).2 ↔
        ((∃ init ∈ accessor.model.graph.initializer, init.name = name ∧
            starts_with_digit init.name = false ∧
            name ∉ user_args_not_requiring_grad) ∨
          name ∈ user_args_requiring_grad) := by
  intro name
  simp [build_gradient_graph, initializer_split_names]

/-- A concrete ONNX model used by the witnesses: two initializers (one
parameter-named, one digit-prefixed), one input, one output. -/
def sample_model : ModelProto :=
  { graph :=
    { input := [make_tensor_value_info "x" 1 [2]],
      output := [make_tensor_value_info "loss" 1 []],
      node := [],
      initializer :=
        [{ name := "fc1.weight", data_type := 1, dims := [2, 2] },
         { name := "57.const", data_type := 1, dims := [1] }] },
    opset_import := [("", 14)] }

/-- Witness for C2 at a concrete model and a concrete (identity) builder. -/
theorem build_gradient_graph_moves_initializers_witness :
    (∀ init ∈ sample_model.graph.initializer, init.name ≠ "") ∧
    (build_gradient_graph (fun m _ _ _ => m) ⟨sample_model, none⟩
        [] ["fc1.weight"] ["loss"]).1.eval_model =
      some { sample_model with graph :=
        { sample_model.graph with
          input := sample_model.graph.input ++
            (sample_model.graph.initializer.filter (fun i =>
                ! starts_with_digit i.name)).map (fun i =>
              make_tensor_value_info i.name i.data_type i.dims),
          initializer := sample_model.graph.initializer.filter (fun i =>
            starts_with_digit i.name) } } :=
  ⟨by decide,
   build_gradient_graph_moves_initializers (fun m _ _ _ => m)
     ⟨sample_model, none⟩ [] ["fc1.weight"] ["loss"] (by decide)⟩

/-- Witness for C3 at a concrete model and a concrete (identity) builder. -/
theorem build_gradient_graph_returns_witness :
    (∀ init ∈ sample_model.graph.initializer, init.name ≠ "") ∧
    (["loss"] ≠ ([] : List String)) ∧
    ("fc1.weight" ∈ (build_gradient_graph (fun m _ _ _ => m)
        ⟨sample_model, none⟩ ["y"] [] ["loss"]).2 ↔
      ((∃ init ∈ sample_model.graph.initializer,
          init.name = "fc1.weight" ∧
          starts_with_digit init.name = false ∧
          "fc1.weight" ∉ ([] : List String)) ∨
        "fc1.weight" ∈ ["y"])) :=
  ⟨by decide, by decide,
   build_gradient_graph_returns (fun m _ _ _ => m) ⟨sample_model, none⟩
     ["y"] [] ["loss"] (by decide) (by decide) "fc1.weight"⟩

/-! ## Lemmas about the suggestion-collection loop of process_results -/

theorem process_row_mem (tokenizer : Tokenizer) (pos : Nat)
    (l : List (List Int × Rat)) (acc : List String × List Rat) (s : String)
    (hs : s ∈ (process_row tokenizer pos acc l).1) :
    s ∈ acc.1 ∨ ∃ p ∈ l, s = suggestion_text tokenizer pos p.1 := by
  induction l generalizing acc with
  | nil => exact Or.inl hs
  | cons hd tl ih =>
    obtain ⟨output_ij, prob⟩ := hd
    simp only [process_row] at hs
    by_cases hbreak : acc.1 ≠ [] ∧ prob < 0
    · rw [if_pos hbreak] at hs
      exact Or.inl hs
    · rw [if_neg hbreak] at hs
      by_cases hmem : suggestion_text tokenizer pos output_ij ∈ acc.1
      · rw [if_pos hmem] at hs
        rcases ih _ hs with h | ⟨p, hp, rfl⟩
        · exact Or.inl h
        · exact Or.inr ⟨p, List.mem_cons_of_mem _ hp, rfl⟩
      · rw [if_neg hmem] at hs
        rcases ih _ hs with h | ⟨p, hp, rfl⟩
        · rcases List.mem_append.mp h with h1 | h2
          · exact Or.inl h1
          · have heq : s = suggestion_text tokenizer pos output_ij := by
              simpa using h2
            exact Or.inr ⟨(output_ij, prob), List.mem_cons_self _ _, heq⟩
        · exact Or.inr ⟨p, List.mem_cons_of_mem _ hp, rfl⟩

theorem process_row_lengths (tokenizer : Tokenizer) (pos : Nat)
    (l : List (List Int × Rat)) (acc : List String × List Rat)
    (h : acc.1.length = acc.2.length) :
    (process_row tokenizer pos acc l).1.length =
      (process_row tokenizer pos acc l).2.length := by
  induction l generalizing acc with
  | nil => exact h
  | cons hd tl ih =>
    obtain ⟨output_ij, prob⟩ := hd
    simp only [process_row]
    by_cases hbreak : acc.1 ≠ [] ∧ prob < 0
    · rw [if_pos hbreak]; exact h
    · rw [if_neg hbreak]
      by_cases hmem : suggestion_text tokenizer pos output_ij ∈ acc.1
      · rw [if_pos hmem]; exact ih _ h
      · rw [if_neg hmem]
        exact ih _ (by simp [h])

theorem process_row_nodup (tokenizer : Tokenizer) (pos : Nat)
    (l : List (List Int × Rat)) (acc : List String × List Rat)
    (h : acc.1.Nodup) :
    (process_row tokenizer pos acc l).1.Nodup := by
  induction l generalizing acc with
  | nil => exact h
  | cons hd tl ih =>
    obtain ⟨output_ij, prob⟩ := hd
    simp only [process_row]
    by_cases hbreak : acc.1 ≠ [] ∧ prob < 0
    · rw [if_pos hbreak]; exact h
    · rw [if_neg hbreak]
      by_cases hmem : suggestion_text tokenizer pos output_ij ∈ acc.1
      · rw [if_pos hmem]; exact ih _ h
      · rw [if_neg hmem]
        refine ih _ ?_
        simp [List.nodup_append, h, hmem]

/-! ## Claim theorems for process_results -/

/-- C6: every suggestion `process_results` collects for a batch row is the
text of one of that row's candidate token sequences, produced by truncating
the token list at the first occurrence of `tokenizer.eos_token_id` (keeping
the tokens before it), dropping the first `last_complete_word_position`
tokens, decoding the remainder and removing trailing whitespace.  The i-th
suggestion list is paired here with the i-th row of `output_ids` by `zip`. -/
theorem process_results_suggestion_texts (tokenizer : Tokenizer)
    (last_complete_word_position : Nat)
    (output_ids : List (List (List Int)))
    (output_probs : List (List Rat)) :
    ∀ pr ∈ ((process_results tokenizer last_complete_word_position
        output_ids output_probs).1).zip output_ids,
      ∀ s ∈ pr.1, ∃ output_ij ∈ pr.2,
        s = py_rstrip (tokenizer.decode
          ((output_ij.takeWhile (fun t => t != tokenizer.eos_token_id)).drop
            last_complete_word_position)) := by
  induction output_ids generalizing output_probs with
  | nil => simp [process_results]
  | cons row rows ih =>
    cases output_probs with
    | nil => simp [process_results]
    | cons prow prows =>
      simp only [process_results, List.zip_cons_cons, List.map_cons,
        List.zip_cons_cons] at *
      intro pr hpr
      rcases List.mem_cons.mp hpr with rfl | hpr
      · intro s hs
        rcases process_row_mem tokenizer last_complete_word_position
          (row.zip prow) ([], []) s hs with h | ⟨p, hp, rfl⟩
        · simp at h
        · exact ⟨p.1, (List.of_mem_zip hp).1,
            by simp [suggestion_text, truncate_at_eos]⟩
      · exact ih prows pr hpr

/-- A concrete tokenizer for the witnesses: eos id 0, constant decode. -/
def sample_tokenizer : Tokenizer :=
  { eos_token_id := 0, decode := fun _ => "hello " }

/-- Witness for C6 at a concrete tokenizer and one (row, candidate). -/
theorem process_results_suggestion_texts_witness :
    ((["hello"], [[(1 : Int), 2]]) ∈
      ((process_results sample_tokenizer 0 [[[1, 2]]] [[(1 : Rat)]]).1).zip
        [[[(1 : Int), 2]]]) ∧
    ("hello" ∈ ["hello"]) ∧
    (∃ output_ij ∈ [[(1 : Int), 2]],
      "hello" = py_rstrip (sample_tokenizer.decode
        ((output_ij.takeWhile
            (fun t => t != sample_tokenizer.eos_token_id)).drop 0))) :=
  ⟨by decide, by decide,
   process_results_suggestion_texts sample_tokenizer 0 [[[1, 2]]]
     [[(1 : Rat)]] (["hello"], [[(1 : Int), 2]]) (by decide) "hello"
     (by decide)⟩

/-- C7: once at least one suggestion has been collected for a row, a
candidate with negative probability stops the row — the accumulated lists
are returned as they are and the remaining candidates of the row contribute
nothing; before any suggestion has been collected, a candidate with negative
probability does not stop processing: it is decoded and collected, and the
loop continues on the rest of the row. -/
theorem process_row_break (tokenizer : Tokenizer)
    (last_complete_word_position : Nat) (acc : List String × List Rat)
    (output_ij : List Int) (prob : Rat) (rest : List (List Int × Rat))
    (hne : acc.1 ≠ []) (hneg : prob < 0) :
    process_row tokenizer last_complete_word_position acc
      ((output_ij, prob) :: rest) = acc ∧
    process_row tokenizer last_complete_word_position ([], [])
      ((output_ij, prob) :: rest) =
      process_row tokenizer last_complete_word_position
        ([suggestion_text tokenizer last_complete_word_position output_ij],
         [prob]) rest := by
  constructor
  · simp only [process_row]
    rw [if_pos ⟨hne, hneg⟩]
  · simp only [process_row]
    rw [if_neg (by simp), if_neg (by simp)]
    simp

/-- Witness for C7 at a concrete row state. -/
theorem process_row_break_witness :
    ((["a"], [(1 : Rat)]).1 ≠ []) ∧ ((-1 : Rat) < 0) ∧
    (process_row sample_tokenizer 0 (["a"], [(1 : Rat)])
        [([2], (-1 : Rat))] = (["a"], [(1 : Rat)]) ∧
      process_row sample_tokenizer 0 ([], []) [([2], (-1 : Rat))] =
        process_row sample_tokenizer 0
          ([suggestion_text sample_tokenizer 0 [2]], [(-1 : Rat)]) []) :=
  ⟨by decide, by decide,
   process_row_break sample_tokenizer 0 (["a"], [(1 : Rat)]) [2] (-1) []
     (by decide) (by decide)⟩

/-- C9: the two lists `process_results` returns have equal length, each
row's suggestion list and probability list have equal length (a duplicate
decoded text is skipped together with its probability), and within each row
the collected suggestion strings are pairwise distinct.  The i-th suggestion
row is paired with the i-th probability row by `zip`. -/
theorem process_results_shapes (tokenizer : Tokenizer)
    (last_complete_word_position : Nat)
    (output_ids : List (List (List Int)))
    (output_probs : List (List Rat)) :
    (process_results tokenizer last_complete_word_position output_ids
        output_probs).1.length =
      (process_results tokenizer last_complete_word_position output_ids
        output_probs).2.length ∧
    ∀ pr ∈ ((process_results tokenizer last_complete_word_position
          output_ids output_probs).1).zip
        ((process_results tokenizer last_complete_word_position output_ids
          output_probs).2),
      pr.1.length = pr.2.length ∧ pr.1.Nodup := by
  constructor
  · simp [process_results]
  · simp only [process_results, List.zip_map']
    intro pr hpr
    rcases List.mem_map.mp hpr with ⟨r, hr, rfl⟩
    rcases List.mem_map.mp hr with ⟨row, hrow, rfl⟩
    exact ⟨process_row_lengths tokenizer last_complete_word_position _ _
        rfl,
      process_row_nodup tokenizer last_complete_word_position _ _
        List.nodup_nil⟩

/-- C8: `get_output_from_output_name` returns the first element of
`model.graph.output` whose name equals the given name when one exists, and
takes the `raise LookupError` path (embedded as `none`) exactly when no
graph output has that name.  The function only reads the model. -/
theorem get_output_from_output_name_first (onnx_model : ModelProto)
    (output_name : String) :
    (get_output_from_output_name onnx_model output_name = none ↔
      ∀ output ∈ onnx_model.graph.output, output.name ≠ output_name) ∧
    ∀ v, get_output_from_output_name onnx_model output_name = some v →
      v.name = output_name ∧
      ∃ before after, onnx_model.graph.output = before ++ v :: after ∧
        ∀ output ∈ before, output.name ≠ output_name := by
  unfold get_output_from_output_name
  induction onnx_model.graph.output with
  | nil =>
    refine ⟨by simp [find_output], ?_⟩
    intro v hv
    simp [find_output] at hv
  | cons o rest ih =>
    by_cases h : o.name = output_name
    · refine ⟨?_, ?_⟩
      · simp [find_output, h]
      · intro v hv
        simp only [find_output, if_pos h] at hv
        obtain rfl := Option.some_injective _ hv.symm
        exact ⟨h, [], rest, rfl, by simp⟩
    · refine ⟨?_, ?_⟩
      · simp only [find_output, if_neg h, ih.1, List.mem_cons]
        constructor
        · rintro hr output (rfl | hmem)
          · exact h
          · exact hr output hmem
        · intro hr output hmem
          exact hr output (Or.inr hmem)
      · intro v hv
        simp only [find_output, if_neg h] at hv
        obtain ⟨hname, before, after, heq, hbefore⟩ := ih.2 v hv
        refine ⟨hname, o :: before, after, by simp [heq], ?_⟩
        intro output hmem
        rcases List.mem_cons.mp hmem with rfl | hmem
        · exact h
        · exact hbefore output hmem

/-! ## Lemmas for generate_random_graph_name and get_model_parameters -/

set_option maxRecDepth 10000 in
theorem repr_starts_with_digit : ∀ m < 1001,
    starts_with_digit (Nat.repr m) = true := by decide

theorem starts_with_digit_append (s t : String)
    (h : starts_with_digit s = true) :
    starts_with_digit (s ++ t) = true := by
  cases s with
  | mk data =>
    cases data with
    | nil => simp [starts_with_digit] at h
    | cons c cs =>
      cases t with
      | mk data2 =>
        have he : String.mk (c :: cs) ++ String.mk data2 =
            String.mk (c :: (cs ++ data2)) := rfl
        rw [he]
        simpa [starts_with_digit] using h

theorem get_model_parameters_loop_spec (args_not_requiring_gradient :
    List String) (inits : List TensorProto) :
    (get_model_parameters_loop args_not_requiring_gradient inits).1 =
      inits.filter (fun i => starts_with_digit i.name = false ∧
        i.name ∉ args_not_requiring_gradient) ∧
    (get_model_parameters_loop args_not_requiring_gradient inits).2 =
      inits.filter (fun i => starts_with_digit i.name = false ∧
        i.name ∈ args_not_requiring_gradient) := by
  induction inits with
  | nil => simp [get_model_parameters_loop]
  | cons i rest ih =>
    by_cases hd : starts_with_digit i.name
    · simp [get_model_parameters_loop, hd, ih.1, ih.2]
    · by_cases hm : i.name ∈ args_not_requiring_gradient
      · simp [get_model_parameters_loop, hd, hm, ih.1, ih.2]
      · simp [get_model_parameters_loop, hd, hm, ih.1, ih.2]

/-- C10: `generate_random_graph_name` produces `<n>.<token>` with the draw
`n ≤ 1000`, a string beginning with a digit; `get_model_parameters` places
an initializer in one of its two returned lists exactly when the
initializer's name does not begin with a digit — trainable exactly when the
name is not in `args_not_requiring_gradient` — so an initializer carrying a
generated name lands in neither list.  The hypothesis on the model excludes
empty initializer names, on which `name[0]` would raise in Python. -/
theorem generate_random_graph_name_not_parameter (n : Nat) (token : String)
    (model : ModelProto) (args_not_requiring_gradient : List String)
    (hn : n ≤ 1000)
    (hne : ∀ init ∈ model.graph.initializer, init.name ≠ "") :
    generate_random_graph_name n token = Nat.repr n ++ "." ++ token ∧
    starts_with_digit (generate_random_graph_name n token) = true ∧
    (get_model_parameters model args_not_requiring_gradient).1 =
      model.graph.initializer.filter (fun i =>
        starts_with_digit i.name = false ∧
        i.name ∉ args_not_requiring_gradient) ∧
    (get_model_parameters model args_not_requiring_gradient).2 =
      model.graph.initializer.filter (fun i =>
        starts_with_digit i.name = false ∧
        i.name ∈ args_not_requiring_gradient) ∧
    ∀ init ∈ model.graph.initializer,
      init.name = generate_random_graph_name n token →
      init ∉ (get_model_parameters model args_not_requiring_gradient).1 ∧
      init ∉ (get_model_parameters model args_not_requiring_gradient).2 := by
  have hdigit : starts_with_digit (generate_random_graph_name n token)
      = true :=
    starts_with_digit_append _ _ (starts_with_digit_append _ "."
      (repr_starts_with_digit n (by omega)))
  have hspec := get_model_parameters_loop_spec args_not_requiring_gradient
    model.graph.initializer
  refine ⟨rfl, hdigit, hspec.1, hspec.2, ?_⟩
  intro init hmem hname
  have hd : starts_with_digit init.name = true := by
    rw [hname]; exact hdigit
  constructor
  · intro hcon
    rw [get_model_parameters, hspec.1] at hcon
    have := (List.mem_filter.mp hcon).2
    simp [hd] at this
  · intro hcon
    rw [get_model_parameters, hspec.2] at hcon
    have := (List.mem_filter.mp hcon).2
    simp [hd] at this

/-- Witness for C10 at a concrete draw, token and model. -/
theorem generate_random_graph_name_not_parameter_witness :
    (7 ≤ 1000) ∧
    (∀ init ∈ sample_model.graph.initializer, init.name ≠ "") ∧
    (generate_random_graph_name 7 "bias" = Nat.repr 7 ++ "." ++ "bias" ∧
      starts_with_digit (generate_random_graph_name 7 "bias") = true ∧
      (get_model_parameters sample_model ["fc1.weight"]).1 =
        sample_model.graph.initializer.filter (fun i =>
          starts_with_digit i.name = false ∧ i.name ∉ ["fc1.weight"]) ∧
      (get_model_parameters sample_model ["fc1.weight"]).2 =
        sample_model.graph.initializer.filter (fun i =>
          starts_with_digit i.name = false ∧ i.name ∈ ["fc1.weight"]) ∧
      ∀ init ∈ sample_model.graph.initializer,
        init.name = generate_random_graph_name 7 "bias" →
        init ∉ (get_model_parameters sample_model ["fc1.weight"]).1 ∧
        init ∉ (get_model_parameters sample_model ["fc1.weight"]).2) :=
  ⟨by decide, by decide,
   generate_random_graph_name_not_parameter 7 "bias" sample_model
     ["fc1.weight"] (by decide) (by decide)⟩
